import Mathlib

/-
Verification of the Reflex real-time market-data core.

Shallow embedding of the operations the claims are about:
  * control/state_subscription_bridge.py : priority-merged symbol state with chart TTL
  * polygon_api/websocket.py            : subscription replace diffing, reconnect backoff
  * pubsub/bus.py                        : EventBus.publish fan-out
  * shared_mem/buffers.py                : DoubleRingBuffer append/drain
  * shared_mem/hydrator.py               : snapshot feature derivation
  * shared_mem/registry.py               : lazy symbol registry
  * ingestion/quote_stream.py            : quote normalization

Python dicts are embedded as association lists (String × β) with first-match
lookup; machine floats (prices, sizes, timestamps) are embedded as rationals;
fallible lookups return Option.
-/

namespace Reflex

/-! ### Association-list primitive: `dict.get(k)` -/

def dictGet {β : Type} (k : String) : List (String × β) → Option β
  | [] => none
  | (k', v) :: rest => if k' = k then some v else dictGet k rest

theorem dictGet_mem {β : Type} {k : String} {v : β} :
    ∀ {l : List (String × β)}, dictGet k l = some v → (k, v) ∈ l := by
  intro l
  induction l with
  | nil => intro h; simp [dictGet] at h
  | cons p rest ih =>
    intro h
    obtain ⟨k1, v1⟩ := p
    by_cases hk : k1 = k
    · subst hk
      simp [dictGet] at h
      subst h
      exact List.mem_cons_self _ _
    · simp [dictGet, hk] at h
      exact List.mem_cons_of_mem _ (ih h)

theorem dictGet_append {β : Type} (k : String) (l₁ l₂ : List (String × β)) :
    dictGet k (l₁ ++ l₂) = ((dictGet k l₁).orElse fun _ => dictGet k l₂) := by
  induction l₁ with
  | nil => simp [dictGet]
  | cons p rest ih =>
    by_cases hk : p.1 = k <;> simp [dictGet, hk, ih]

/-! ### State → Subscription bridge (control/state_subscription_bridge.py)

`STATE_ORDER` admits the three states COLD < WARM < HOT; `SOURCE_PRIORITY`
fixes the merge order override > evaluator > chart > db; chart assertions
carry a per-symbol timestamp `chart_ts` with TTL `CHART_TTL_SEC = 45`. -/

inductive BState
  | COLD
  | WARM
  | HOT
deriving DecidableEq

inductive Source
  | override
  | evaluator
  | chart
  | db
deriving DecidableEq

def SOURCE_PRIORITY : List Source := [.override, .evaluator, .chart, .db]

def CHART_TTL_SEC : ℚ := 45

structure BridgeState where
  override : List (String × BState)
  evaluator : List (String × BState)
  chart : List (String × BState)
  db : List (String × BState)
  chart_ts : List (String × ℚ)

def BridgeState.sourceMap (b : BridgeState) : Source → List (String × BState)
  | .override => b.override
  | .evaluator => b.evaluator
  | .chart => b.chart
  | .db => b.db

/-- The priority loop of `_effective_state_for`: walk `SOURCE_PRIORITY`; skip a
source that does not hold the symbol; skip the chart source when
`now - chart_ts.get(sym, 0.0) > CHART_TTL_SEC`; return the first surviving
state, else COLD. -/
def effLoop (b : BridgeState) (now : ℚ) (sym : String) : List Source → BState
  | [] => .COLD
  | src :: rest =>
    match dictGet sym (b.sourceMap src) with
    | none => effLoop b now sym rest
    | some st =>
      if src = .chart ∧ CHART_TTL_SEC < now - ((dictGet sym b.chart_ts).getD 0)
      then effLoop b now sym rest
      else st

/-- `StateSubscriptionBridge._effective_state_for(sym)` at wall-clock `now`. -/
def effectiveStateFor (b : BridgeState) (now : ℚ) (sym : String) : BState :=
  effLoop b now sym SOURCE_PRIORITY

/-- Symbols present in at least one of the four source maps
(`_compute_effective` unions all keys). -/
def allSymbols (b : BridgeState) : List String :=
  ((b.db.map Prod.fst) ++ (b.evaluator.map Prod.fst) ++ (b.override.map Prod.fst)
    ++ (b.chart.map Prod.fst)).dedup

/-- `_compute_effective`: `(warm, hot)` sets derived from the effective state. -/
def computeEffective (b : BridgeState) (now : ℚ) : List String × List String :=
  ((allSymbols b).filter (fun s => decide (effectiveStateFor b now s = BState.WARM)),
   (allSymbols b).filter (fun s => decide (effectiveStateFor b now s = BState.HOT)))

/-- Modelled from the spec: `first_present(override, evaluator, chart, db)(S)`,
the state asserted by the highest-priority source holding S; used as the
specification side of the bridge-priority refinement claim. -/
def first_present (b : BridgeState) (sym : String) : Option BState :=
  (dictGet sym b.override).orElse fun _ =>
  (dictGet sym b.evaluator).orElse fun _ =>
  (dictGet sym b.chart).orElse fun _ =>
  dictGet sym b.db

/-- One iteration of `_chart_ttl_loop`: collect the chart entries whose
timestamp is older than the TTL, pop them from `chart_ts` and from the chart
source map, and signal a push iff any entry was removed. -/
def chartTtlStep (b : BridgeState) (now : ℚ) : BridgeState × Bool :=
  let expired := (b.chart_ts.filter (fun p => decide (CHART_TTL_SEC < now - p.2))).map Prod.fst
  ({ b with
      chart_ts := b.chart_ts.filter (fun p => decide (¬ CHART_TTL_SEC < now - p.2)),
      chart := b.chart.filter (fun p => decide (p.1 ∉ expired)) },
   !expired.isEmpty)

/-- C1: with every chart timestamp fresh (`now - chart_ts[S] ≤ TTL`), the
bridge's effective state for any symbol equals the state asserted by the
highest-priority source that holds the symbol, in the order
override > evaluator > chart > db, and COLD when no source holds it. -/
theorem bridge_priority_fresh (b : BridgeState) (now : ℚ) (sym : String)
    (hfresh : now - ((dictGet sym b.chart_ts).getD 0) ≤ CHART_TTL_SEC) :
    effectiveStateFor b now sym = (first_present b sym).getD BState.COLD := by
  have hc : ¬ CHART_TTL_SEC < now - ((dictGet sym b.chart_ts).getD 0) := not_lt.mpr hfresh
  simp only [effectiveStateFor, SOURCE_PRIORITY, first_present]
  cases h1 : dictGet sym b.override <;>
    cases h2 : dictGet sym b.evaluator <;>
      cases h3 : dictGet sym b.chart <;>
        cases h4 : dictGet sym b.db <;>
          simp [effLoop, BridgeState.sourceMap, h1, h2, h3, h4, hc, Option.orElse]

/-- C1 witness: a concrete bridge state in which both override and evaluator
hold the symbol; the override state wins. -/
theorem bridge_priority_fresh_witness :
    ((0 : ℚ) - ((dictGet "A" ([] : List (String × ℚ))).getD 0) ≤ CHART_TTL_SEC)
    ∧ effectiveStateFor ⟨[("A", .WARM)], [("A", .HOT)], [], [], []⟩ 0 "A"
        = (first_present ⟨[("A", .WARM)], [("A", .HOT)], [], [], []⟩ "A").getD BState.COLD
    ∧ effectiveStateFor ⟨[("A", .WARM)], [("A", .HOT)], [], [], []⟩ 0 "A" = BState.WARM := by
  refine ⟨by norm_num [dictGet, CHART_TTL_SEC], ?_, by rfl⟩
  exact bridge_priority_fresh ⟨[("A", .WARM)], [("A", .HOT)], [], [], []⟩ 0 "A"
    (by norm_num [dictGet, CHART_TTL_SEC])

/-- C4: a symbol whose chart timestamp is stale (`now - ts > TTL`) and which no
other source asserts resolves to COLD and is in neither effective set;
independently, one pass of the chart-TTL expirer removes every chart entry
older than the TTL (from `chart_ts` and from the chart source map) and signals
a push iff it removed at least one entry. -/
theorem chart_ttl_cold_and_expire (b : BridgeState) (now : ℚ) (sym : String)
    (hstale : CHART_TTL_SEC < now - ((dictGet sym b.chart_ts).getD 0))
    (hov : dictGet sym b.override = none)
    (hev : dictGet sym b.evaluator = none)
    (hdb : dictGet sym b.db = none) :
    effectiveStateFor b now sym = BState.COLD
    ∧ sym ∉ (computeEffective b now).1
    ∧ sym ∉ (computeEffective b now).2
    ∧ (∀ p ∈ (chartTtlStep b now).1.chart_ts, now - p.2 ≤ CHART_TTL_SEC)
    ∧ (∀ s ∈ ((chartTtlStep b now).1.chart).map Prod.fst,
        ∀ ts, dictGet s b.chart_ts = some ts → now - ts ≤ CHART_TTL_SEC)
    ∧ ((chartTtlStep b now).2 = true ↔ ∃ p ∈ b.chart_ts, CHART_TTL_SEC < now - p.2) := by
  have heff : effectiveStateFor b now sym = BState.COLD := by
    simp only [effectiveStateFor, SOURCE_PRIORITY]
    cases h3 : dictGet sym b.chart <;>
      simp [effLoop, BridgeState.sourceMap, hov, hev, h3, hdb, hstale]
  refine ⟨heff, ?_, ?_, ?_, ?_, ?_⟩
  · simp [computeEffective, List.mem_filter, heff]
  · simp [computeEffective, List.mem_filter, heff]
  · intro p hp
    simp only [chartTtlStep, List.mem_filter, decide_eq_true_eq] at hp
    exact not_lt.mp hp.2
  · intro s hs ts hts
    simp only [chartTtlStep, List.mem_map, List.mem_filter, decide_eq_true_eq] at hs
    obtain ⟨p, ⟨_, hnot⟩, hps⟩ := hs
    by_contra hgt
    push_neg at hgt
    exact hnot ⟨(s, ts), ⟨dictGet_mem hts, hgt⟩, hps.symm⟩
  · show (!((b.chart_ts.filter fun p => decide (CHART_TTL_SEC < now - p.2)).map Prod.fst).isEmpty) = true
      ↔ ∃ p ∈ b.chart_ts, CHART_TTL_SEC < now - p.2
    rcases hE : b.chart_ts.filter (fun p => decide (CHART_TTL_SEC < now - p.2)) with _ | ⟨p0, E2⟩
    · simp only [hE, List.map_nil, List.isEmpty_nil, Bool.not_true]
      constructor
      · intro h
        exact absurd h (by simp)
      · rintro ⟨p, hp, hst⟩
        have hmem : p ∈ b.chart_ts.filter (fun q => decide (CHART_TTL_SEC < now - q.2)) :=
          List.mem_filter.mpr ⟨hp, by simpa using hst⟩
        rw [hE] at hmem
        exact absurd hmem (List.not_mem_nil p)
    · simp only [hE, List.map_cons, List.isEmpty_cons, Bool.not_false, true_iff]
      have hmem : p0 ∈ b.chart_ts.filter (fun q => decide (CHART_TTL_SEC < now - q.2)) := by
        rw [hE]; exact List.mem_cons_self _ _
      have h2 := List.mem_filter.mp hmem
      exact ⟨p0, h2.1, by simpa using h2.2⟩

/-- C4 witness: chart asserted "T" at time 0; at time 46 it is stale. -/
theorem chart_ttl_cold_and_expire_witness :
    (CHART_TTL_SEC < (46 : ℚ) - ((dictGet "T" [("T", (0 : ℚ))]).getD 0))
    ∧ effectiveStateFor ⟨[], [], [("T", .HOT)], [], [("T", 0)]⟩ 46 "T" = BState.COLD
    ∧ (chartTtlStep ⟨[], [], [("T", .HOT)], [], [("T", 0)]⟩ 46).2 = true := by
  have hstale : CHART_TTL_SEC < (46 : ℚ) - ((dictGet "T" [("T", (0 : ℚ))]).getD 0) := by
    norm_num [dictGet, CHART_TTL_SEC]
  have h := chart_ttl_cold_and_expire ⟨[], [], [("T", .HOT)], [], [("T", 0)]⟩ 46 "T"
    hstale (by rfl) (by rfl) (by rfl)
  refine ⟨hstale, h.1, ?_⟩
  exact h.2.2.2.2.2.mpr ⟨("T", 0), by simp, by norm_num [CHART_TTL_SEC]⟩

/-! ### WebSocket client (polygon_api/websocket.py)

Outbound control messages; `_make_sub_msg` / `_make_unsub_msg` encode a
channel and a symbol list (the wire form joins them as `"<ch>.<sym>,..."`). -/

inductive WsMsg
  | unsubscribe (channel : String) (symbols : List String)
  | subscribe (channel : String) (symbols : List String)
deriving DecidableEq

def isUnsub : WsMsg → Bool
  | .unsubscribe _ _ => true
  | .subscribe _ _ => false

def isSub : WsMsg → Bool
  | .unsubscribe _ _ => false
  | .subscribe _ _ => true

/-- Union of the symbols carried by the unsubscribe messages of a batch. -/
def unsubSymbols (msgs : List WsMsg) : Finset String :=
  (msgs.map fun m => match m with | .unsubscribe _ syms => syms | .subscribe _ _ => []).flatten.toFinset

/-- Union of the symbols carried by the subscribe messages of a batch. -/
def subSymbols (msgs : List WsMsg) : Finset String :=
  (msgs.map fun m => match m with | .subscribe _ syms => syms | .unsubscribe _ _ => []).flatten.toFinset

/-- `PolygonWebSocketClient.replace_with(symbols, channel)` acting on the
channel's current subscription set: compute `add = target - current` and
`rem = current - target` (sorted, as the source sorts them), enqueue an
unsubscribe for `rem` and then a subscribe for `add` when non-empty, and
install `target` as the channel's set.  Returns the enqueued messages and the
new set. -/
def replace_with (target current : Finset String) (channel : String) : List WsMsg × Finset String :=
  let add := (target \ current).sort (· ≤ ·)
  let rem := (current \ target).sort (· ≤ ·)
  ((if rem ≠ [] then [WsMsg.unsubscribe channel rem] else [])
    ++ (if add ≠ [] then [WsMsg.subscribe channel add] else []), target)

theorem sort_eq_nil_iff_empty (s : Finset String) : s.sort (· ≤ ·) = [] ↔ s = ∅ := by
  constructor
  · intro h
    have := Finset.length_sort (α := String) (· ≤ ·) (s := s)
    rw [h] at this
    simp at this
    exact Finset.card_eq_zero.mp this.symm
  · intro h
    subst h
    exact Finset.sort_empty _

/-- The message batch of `replace_with`, as a function of the two sorted diff
lists. -/
def diffMsgs (ch : String) (rem add : List String) : List WsMsg :=
  (if rem = [] then [] else [WsMsg.unsubscribe ch rem])
    ++ (if add = [] then [] else [WsMsg.subscribe ch add])

theorem replace_with_eq (target current : Finset String) (ch : String) :
    replace_with target current ch =
      (diffMsgs ch ((current \ target).sort (· ≤ ·)) ((target \ current).sort (· ≤ ·)), target) := by
  simp only [replace_with, diffMsgs, ne_eq, ite_not]

theorem diffMsgs_unsub (ch : String) (rem add : List String) :
    unsubSymbols (diffMsgs ch rem add) = rem.toFinset := by
  cases rem <;> cases add <;> simp [diffMsgs, unsubSymbols]

theorem diffMsgs_sub (ch : String) (rem add : List String) :
    subSymbols (diffMsgs ch rem add) = add.toFinset := by
  cases rem <;> cases add <;> simp [diffMsgs, subSymbols]

theorem diffMsgs_length (ch : String) (rem add : List String) :
    (diffMsgs ch rem add).length =
      (if rem = [] then 0 else 1) + (if add = [] then 0 else 1) := by
  cases rem <;> cases add <;> simp [diffMsgs]

theorem diffMsgs_order (ch : String) (rem add : List String) :
    diffMsgs ch rem add =
      ((diffMsgs ch rem add).filter isUnsub) ++ ((diffMsgs ch rem add).filter isSub) := by
  cases rem <;> cases add <;> simp [diffMsgs, isUnsub, isSub]

/-- C2: `replace_with` unsubscribes exactly `current - target`, subscribes
exactly `target - current`, emits no message for an empty diff side, emits
unsubscribes before subscribes and nothing else, installs `target`, and a
second `replace_with` with the same target emits nothing. -/
theorem replace_with_diff (target current : Finset String) (ch : String) :
    (replace_with target current ch).2 = target
    ∧ unsubSymbols (replace_with target current ch).1 = current \ target
    ∧ subSymbols (replace_with target current ch).1 = target \ current
    ∧ (replace_with target current ch).1.length =
        (if current \ target = ∅ then 0 else 1) + (if target \ current = ∅ then 0 else 1)
    ∧ (replace_with target current ch).1 =
        ((replace_with target current ch).1.filter isUnsub)
          ++ ((replace_with target current ch).1.filter isSub)
    ∧ (replace_with target ((replace_with target current ch).2) ch).1 = [] := by
  have hRe : (current \ target).sort (· ≤ ·) = [] ↔ current \ target = ∅ :=
    sort_eq_nil_iff_empty _
  have hAe : (target \ current).sort (· ≤ ·) = [] ↔ target \ current = ∅ :=
    sort_eq_nil_iff_empty _
  have hRt : ((current \ target).sort (· ≤ ·)).toFinset = current \ target :=
    Finset.sort_toFinset _ _
  have hAt : ((target \ current).sort (· ≤ ·)).toFinset = target \ current :=
    Finset.sort_toFinset _ _
  refine ⟨rfl, ?_, ?_, ?_, ?_, ?_⟩
  · rw [replace_with_eq, diffMsgs_unsub, hRt]
  · rw [replace_with_eq, diffMsgs_sub, hAt]
  · rw [replace_with_eq, diffMsgs_length, if_congr hRe rfl rfl, if_congr hAe rfl rfl]
  · rw [replace_with_eq]
    exact diffMsgs_order ch _ _
  · rw [replace_with_eq, replace_with_eq]
    have h0 : (target \ target).sort (· ≤ ·) = [] := by
      rw [Finset.sdiff_self]
      exact Finset.sort_empty _
    simp [diffMsgs, h0]

/-! ### Reconnect backoff (`PolygonWebSocketClient._run_forever`)

`_run_forever` enters with `backoff = 1` and `self._connect_attempts = 0`.
After a failed attempt it sleeps `min(backoff, max_backoff)` (plus jitter in
`[0, 0.2*slp]`), doubles `backoff` locally, then calls `_spawn_ws()` — which
starts a NEW runner thread executing `_run_forever` from the top — and
returns.  The fresh runner therefore re-initializes `backoff` to 1 before the
next attempt. -/

structure WSRun where
  backoff : Nat
  attempts : Nat
deriving DecidableEq

/-- Runner-local state on entry to `_run_forever`: `backoff = 1`,
`self._connect_attempts = 0`. -/
def runnerInit : WSRun := ⟨1, 0⟩

/-- One failed connection attempt: the base sleep is `min(backoff, max_backoff)`
and the state in force for the next attempt is `runnerInit`, because the next
attempt runs in the freshly spawned runner thread. -/
def failStep (maxBackoff : Nat) (st : WSRun) : Nat × WSRun :=
  (min st.backoff maxBackoff, runnerInit)

/-- Base (jitter-free) sleep delays across `n` consecutive failed attempts of
one client run. -/
def wsFailDelays (maxBackoff : Nat) : Nat → WSRun → List Nat
  | 0, _ => []
  | n + 1, st => (failStep maxBackoff st).1 :: wsFailDelays maxBackoff n (failStep maxBackoff st).2

/-- Modelled from the spec: the delay before the retry that follows the n-th
consecutive failure, per the claimed doubling schedule starting at 1 s capped
at `max_backoff`. -/
def specBackoffDelay (maxBackoff n : Nat) : Nat := min (2 ^ (n - 1)) maxBackoff

/-- Modelled from the spec: the claimed delay schedule across `n` consecutive
failures. -/
def specBackoffDelays (maxBackoff n : Nat) : List Nat :=
  (List.range n).map fun i => specBackoffDelay maxBackoff (i + 1)

/-- C5: the code's delay schedule never doubles — every failed attempt spawns a
fresh runner whose `_run_forever` re-initializes `backoff` to 1 — so after two
consecutive failures the code has slept base delays [1, 1] while the claimed
doubling schedule prescribes [1, 2]. -/
theorem ws_backoff_resets :
    wsFailDelays 60 2 runnerInit = [1, 1]
    ∧ specBackoffDelays 60 2 = [1, 2]
    ∧ wsFailDelays 60 2 runnerInit ≠ specBackoffDelays 60 2 := by
  refine ⟨rfl, ?_, ?_⟩ <;> decide

/-! ### EventBus (pubsub/bus.py)

`publish(topic, message)` iterates the topic's subscriber list calling each
callback, then appends `(topic, message)` to the recent-history deque.  There
is no per-callback exception guard, so a raising callback aborts the loop and
the append, and the exception escapes `publish`.  A callback is embedded by an
identifier plus whether it raises when called. -/

inductive CbKind
  | ok
  | throws
deriving DecidableEq

structure Cb where
  id : Nat
  kind : CbKind
deriving DecidableEq

/-- Run `for cb in self._subs[topic]: cb(message)`: returns the identifiers of
the callbacks that were called (in order) and the identifier of the callback
whose exception aborted the loop, if any. -/
def callSubs : List Cb → List Nat × Option Nat
  | [] => ([], none)
  | cb :: rest =>
    match cb.kind with
    | .throws => ([cb.id], some cb.id)
    | .ok => ((callSubs rest).1.cons cb.id, (callSubs rest).2)

structure PublishResult where
  raised : Option Nat
  queue : List (String × Nat)
  invoked : List Nat
deriving DecidableEq

/-- `EventBus.publish(topic, message)`: call every subscriber of the topic in
order; if none raises, append `(topic, message)` to the history queue; if one
raises, the loop stops there, the append is not executed, and the exception
propagates (reported in `raised`). -/
def publish (subs : List Cb) (queue : List (String × Nat)) (topic : String) (message : Nat) :
    PublishResult :=
  match (callSubs subs).2 with
  | some e => ⟨some e, queue, (callSubs subs).1⟩
  | none => ⟨none, queue.concat (topic, message), (callSubs subs).1⟩

/-- C6 counterexample: with two subscribers of which the first raises, the
exception propagates out of `publish`, the second subscriber is not invoked,
and the message is not appended to the recent-history. -/
theorem bus_publish_throw_counterexample :
    (publish [⟨0, .throws⟩, ⟨1, .ok⟩] [] "t" 7).raised = some 0
    ∧ 1 ∉ (publish [⟨0, .throws⟩, ⟨1, .ok⟩] [] "t" 7).invoked
    ∧ (publish [⟨0, .throws⟩, ⟨1, .ok⟩] [] "t" 7).queue = [] := by
  refine ⟨rfl, ?_, rfl⟩
  decide

/-- C6 amended: if a subscriber raises during `publish`, the subscribers before
it run, the raising one is the last invoked, the subscribers after it are not
invoked, the (topic, message) pair is not appended to the recent-history, and
the exception propagates to the publisher. -/
theorem bus_publish_throw (pre post : List Cb) (c : Cb) (queue : List (String × Nat))
    (topic : String) (message : Nat)
    (hpre : ∀ p ∈ pre, p.kind = CbKind.ok) (hc : c.kind = CbKind.throws) :
    publish (pre ++ c :: post) queue topic message =
      ⟨some c.id, queue, (pre.map Cb.id).concat c.id⟩ := by
  have hcall : callSubs (pre ++ c :: post) = ((pre.map Cb.id).concat c.id, some c.id) := by
    induction pre with
    | nil => simp [callSubs, hc]
    | cons p rest ih =>
      have hp : p.kind = CbKind.ok := hpre p (List.mem_cons_self _ _)
      have hrest : ∀ q ∈ rest, q.kind = CbKind.ok := fun q hq => hpre q (List.mem_cons_of_mem _ hq)
      simp [callSubs, hp, ih hrest]
  simp [publish, hcall]

/-- C6 amended witness: one well-behaved subscriber, then a raising one, then a
trailing one. -/
theorem bus_publish_throw_witness :
    (∀ p ∈ [(⟨5, .ok⟩ : Cb)], p.kind = CbKind.ok)
    ∧ (⟨0, CbKind.throws⟩ : Cb).kind = CbKind.throws
    ∧ publish ([⟨5, .ok⟩] ++ (⟨0, .throws⟩ : Cb) :: [⟨1, .ok⟩]) [("q", 3)] "t" 7 =
        ⟨some 0, [("q", 3)], [5, 0]⟩ := by
  refine ⟨by decide, rfl, ?_⟩
  exact bus_publish_throw [⟨5, .ok⟩] [⟨1, .ok⟩] ⟨0, .throws⟩ [("q", 3)] "t" 7 (by decide) rfl

/-! ### Double ring buffer (shared_mem/buffers.py)

`DoubleRingBuffer` holds an `active` deque of fixed capacity; `append` pushes
to its right, evicting from the left when full (Python `deque(maxlen=cap)`);
`drain` swaps `active` with the (empty) drain deque, returns the drained items
as a list and clears the drain side, so the new active deque is empty. -/

inductive BufOp (α : Type)
  | append (v : α)
  | drain

/-- `deque(maxlen=cap).append(v)` on contents `st` (oldest first): keep the
last `cap` elements of `st ++ [v]`. -/
def pushCap {α : Type} (cap : Nat) (st : List α) (v : α) : List α :=
  (st ++ [v]).drop ((st ++ [v]).length - cap)

/-- Run a sequence of `append`/`drain` operations from active contents `st`;
returns the final active contents and the list of values returned by each
`drain` call, in call order. -/
def bufSteps {α : Type} (cap : Nat) : List (BufOp α) → List α → List α × List (List α)
  | [], st => (st, [])
  | .append v :: rest, st => bufSteps cap rest (pushCap cap st v)
  | .drain :: rest, st =>
    ((bufSteps cap rest []).1, st :: (bufSteps cap rest []).2)

/-- The values appended by a sequence of operations, in order. -/
def appendsOf {α : Type} : List (BufOp α) → List α
  | [] => []
  | .append v :: rest => v :: appendsOf rest
  | .drain :: rest => appendsOf rest

theorem bufSteps_flatten_sublist {α : Type} (cap : Nat) (ops : List (BufOp α)) :
    ∀ st : List α,
      ((bufSteps cap ops st).2.flatten ++ (bufSteps cap ops st).1).Sublist (st ++ appendsOf ops) := by
  induction ops with
  | nil => intro st; simp [bufSteps, appendsOf]
  | cons op rest ih =>
    intro st
    cases op with
    | append v =>
      have h1 := ih (pushCap cap st v)
      have h2 : (pushCap cap st v).Sublist (st ++ [v]) := List.drop_sublist _ _
      have h3 : ((pushCap cap st v) ++ appendsOf rest).Sublist ((st ++ [v]) ++ appendsOf rest) :=
        h2.append_right _
      simpa [bufSteps, appendsOf] using h1.trans h3
    | drain =>
      have h1 := ih []
      simp only [bufSteps, appendsOf, List.flatten_cons, List.append_assoc]
      exact List.Sublist.append_left (by simpa using h1) st

theorem bufSteps_append {α : Type} (cap : Nat) (ops₁ ops₂ : List (BufOp α)) :
    ∀ st : List α,
      bufSteps cap (ops₁ ++ ops₂) st =
        ((bufSteps cap ops₂ (bufSteps cap ops₁ st).1).1,
         (bufSteps cap ops₁ st).2 ++ (bufSteps cap ops₂ (bufSteps cap ops₁ st).1).2) := by
  induction ops₁ with
  | nil => intro st; simp [bufSteps]
  | cons op rest ih =>
    intro st
    cases op with
    | append v => simpa [bufSteps] using ih (pushCap cap st v)
    | drain => simp [bufSteps, ih []]

/-- C3 amended: starting from an empty buffer, (a) appending a final `drain`
returns exactly the active contents at the moment of the swap, appended to the
earlier drain results; (b) immediately after a `drain` the active deque is
empty; and (c) the concatenation of all drain results is a subsequence
(ordered sub-multiset, hence no duplication and no reordering) of the append
sequence; only capacity-evicted or still-buffered items are missing. -/
theorem ring_buffer_drain {α : Type} (cap : Nat) (ops : List (BufOp α)) :
    (bufSteps cap (ops ++ [BufOp.drain]) []).2 =
        (bufSteps cap ops []).2 ++ [(bufSteps cap ops []).1]
    ∧ (bufSteps cap (ops ++ [BufOp.drain]) []).1 = []
    ∧ ((bufSteps cap ops []).2.flatten).Sublist (appendsOf ops) := by
  refine ⟨?_, ?_, ?_⟩
  · rw [bufSteps_append]
    simp [bufSteps]
  · rw [bufSteps_append]
    simp [bufSteps]
  · have h := bufSteps_flatten_sublist cap ops ([] : List α)
    simp only [List.nil_append] at h
    exact (List.sublist_append_left _ _).trans h

/-- C3 counterexample: with capacity 2 and the call sequence append 1, drain,
append 2, the union of all drain results is [1], which is not a suffix of the
append sequence [1, 2] even as a multiset — yet nothing was ever evicted (the
deque held at most one item), so the claim's eviction allowance does not
apply; the still-buffered trailing append is what breaks suffix-ness. -/
theorem ring_buffer_suffix_counterexample :
    (bufSteps 2 [BufOp.append 1, BufOp.drain, BufOp.append 2] ([] : List ℕ)).2.flatten = [1]
    ∧ appendsOf [BufOp.append 1, BufOp.drain, BufOp.append 2] = [(1 : ℕ), 2]
    ∧ ¬ ∃ s : List ℕ, s <:+ [1, 2] ∧ s.Perm [1] := by
  refine ⟨rfl, rfl, ?_⟩
  rintro ⟨s, hs, hp⟩
  have hmem : s ∈ ([1, 2] : List ℕ).tails := (List.mem_tails s [1, 2]).mpr hs
  fin_cases hmem <;> exact absurd hp (by decide)

/-! ### Symbol registry (shared_mem/registry.py)

A thread-safe dict-of-dicts keyed by the upper-cased symbol.  `symbol.upper()`
is embedded as a per-character basic-latin upper-case map (the symbols of this
system are ASCII). -/

def pyToUpper (s : String) : String := String.mk (s.data.map Char.toUpper)

theorem toNat_ofNat_valid (n : Nat) (h : n.isValidChar) : (Char.ofNat n).toNat = n := by
  simp only [Char.ofNat, h, dif_pos, Char.ofNatAux, Char.toNat]
  rfl

theorem char_toUpper_idem (c : Char) : c.toUpper.toUpper = c.toUpper := by
  simp only [Char.toUpper]
  by_cases h : c.toNat ≥ 97 ∧ c.toNat ≤ 122
  · rw [if_pos h]
    have hv : (c.toNat - 32).isValidChar := Or.inl (by omega)
    have ht : (Char.ofNat (c.toNat - 32)).toNat = c.toNat - 32 := toNat_ofNat_valid _ hv
    rw [if_neg (by rw [ht]; omega)]
  · rw [if_neg h, if_neg h]

theorem pyToUpper_idem (s : String) : pyToUpper (pyToUpper s) = pyToUpper s := by
  simp only [pyToUpper, List.map_map]
  congr 1
  induction s.data with
  | nil => rfl
  | cons c rest ih => simp [Function.comp, char_toUpper_idem, ih]

structure Snapshot where
  spread : ℚ
  mid : ℚ
  bid_sz : ℚ
  ask_sz : ℚ
  imbalance : ℚ
  pressure : ℚ
deriving DecidableEq

def zeroSnapshot : Snapshot := ⟨0, 0, 0, 0, 0, 0⟩

structure SymRecord where
  mode : String
  flags : List (String × String)
  last_update : Option Int
  last_price : Option ℚ
  last_quote : Option ℚ
  snapshot : Snapshot
deriving DecidableEq

/-- The `_default_fields` record created by `_Registry._ensure` for an unseen
symbol: mode COLD, empty flags, all latest fields None, zeroed snapshot. -/
def defaultRecord : SymRecord :=
  { mode := "COLD", flags := [], last_update := none, last_price := none,
    last_quote := none, snapshot := zeroSnapshot }

abbrev RegState := List (String × SymRecord)

/-- `_Registry._ensure(symbol)`: upper-case the key, insert the default record
if absent, and return the stored record together with the updated state. -/
def regEnsure (reg : RegState) (symbol : String) : SymRecord × RegState :=
  let s := pyToUpper symbol
  match dictGet s reg with
  | some rec => (rec, reg)
  | none => (defaultRecord, reg.concat (s, defaultRecord))

/-- `registry[symbol]` (`__getitem__` delegates to `_ensure`). -/
def regGetItem (reg : RegState) (symbol : String) : SymRecord × RegState :=
  regEnsure reg symbol

/-- `symbol in registry` (`__contains__`): a pure membership test that does not
insert anything. -/
def regContains (reg : RegState) (symbol : String) : Bool × RegState :=
  ((dictGet (pyToUpper symbol) reg).isSome, reg)

/-- `_Registry.get_mode(symbol)`: upper-case, `_ensure`, and read the stored
record's mode. -/
def get_mode (reg : RegState) (symbol : String) : String × RegState :=
  let s := pyToUpper symbol
  ((regEnsure reg s).1.mode, (regEnsure reg s).2)

/-- Read `_data[symbol.upper()]`, if present. -/
def regFind (reg : RegState) (symbol : String) : Option SymRecord :=
  dictGet (pyToUpper symbol) reg

/-- Overwrite the record stored under the (already upper-cased) key `s`;
embeds the in-place mutation of the dict returned by `_ensure`. -/
def regUpdate (reg : RegState) (s : String) (rec : SymRecord) : RegState :=
  reg.map fun p => if p.1 = s then (p.1, rec) else p

theorem dictGet_concat_self {β : Type} (k : String) (l : List (String × β)) (v : β)
    (h : dictGet k l = none) : dictGet k (l.concat (k, v)) = some v := by
  rw [List.concat_eq_append, dictGet_append, h]
  simp [dictGet]

theorem dictGet_regEnsure (reg : RegState) (symbol : String) :
    dictGet (pyToUpper symbol) (regEnsure reg symbol).2 = some (regEnsure reg symbol).1 := by
  simp only [regEnsure]
  cases h : dictGet (pyToUpper symbol) reg with
  | none => simpa using dictGet_concat_self _ _ _ h
  | some rec => simpa using h

theorem dictGet_regUpdate {reg : RegState} {s : String} {r : SymRecord} (rec : SymRecord)
    (h : dictGet s reg = some r) : dictGet s (regUpdate reg s rec) = some rec := by
  induction reg with
  | nil => simp [dictGet] at h
  | cons p rest ih =>
    obtain ⟨k1, v1⟩ := p
    by_cases hp : k1 = s
    · subst hp
      simp only [regUpdate, List.map_cons]
      simp [dictGet]
    · simp only [dictGet, if_neg hp] at h
      simp only [regUpdate, List.map_cons] at ih ⊢
      rw [show ((if (k1, v1).1 = s then ((k1, v1).1, rec) else (k1, v1)) : String × SymRecord)
            = (k1, v1) from by simp [hp]]
      simp only [dictGet, if_neg hp]
      exact ih h

/-! ### Snapshot hydrator (shared_mem/hydrator.py) -/

/-- A quote event as consumed by `hydrate_snapshot`; each field is present or
absent, matching the `quote.get(...)` fallback chains of the source. -/
structure Quote where
  bid : Option ℚ
  bid_price : Option ℚ
  ask : Option ℚ
  ask_price : Option ℚ
  buy_volume : Option ℚ
  bid_size : Option ℚ
  sell_volume : Option ℚ
  ask_size : Option ℚ
  timestamp : Option Int
deriving DecidableEq

/-- The `1e-12` epsilon of `_compute_features`. -/
def EPS : ℚ := 1 / 10 ^ 12

/-- `_compute_features(bid_px, bid_sz, ask_px, ask_sz)`. -/
def compute_features (bid_px bid_sz ask_px ask_sz : ℚ) : Snapshot :=
  let spread := max 0 (ask_px - bid_px)
  let mid := if 0 < spread then (ask_px + bid_px) / 2 else bid_px
  let sum_bid := bid_sz
  let sum_ask := ask_sz
  let tot := sum_bid + sum_ask
  let imbalance := if EPS < tot then (sum_bid - sum_ask) / tot else 0
  let pressure := (bid_sz - ask_sz) / max (bid_sz + ask_sz) EPS
  ⟨spread, mid, sum_bid, sum_ask, imbalance, pressure⟩

/-- `hydrate_snapshot(symbol, quote)`: fetch (or lazily create) the symbol's
record, read the quote fields with their `get` fallbacks
(`bid`→`bid_price`→0.0, `ask`→`ask_price`→0.0, `buy_volume`→`bid_size`→0.0,
`sell_volume`→`ask_size`→0.0), overwrite the snapshot with the computed
features, set `last_update` to the quote's timestamp and `last_price` to the
new mid. -/
def hydrate_snapshot (reg : RegState) (symbol : String) (q : Quote) : RegState :=
  let er := regEnsure reg symbol
  let bid := q.bid.getD (q.bid_price.getD 0)
  let ask := q.ask.getD (q.ask_price.getD 0)
  let bid_sz := q.buy_volume.getD (q.bid_size.getD 0)
  let ask_sz := q.sell_volume.getD (q.ask_size.getD 0)
  let feats := compute_features bid bid_sz ask ask_sz
  regUpdate er.2 (pyToUpper symbol)
    { er.1 with snapshot := feats, last_update := q.timestamp, last_price := some feats.mid }

/-- After hydration the symbol's stored record carries the computed features,
the quote timestamp, and `last_price = mid`. -/
theorem regFind_hydrate (reg : RegState) (symbol : String) (q : Quote) :
    regFind (hydrate_snapshot reg symbol q) symbol =
      some { (regEnsure reg symbol).1 with
             snapshot := compute_features (q.bid.getD (q.bid_price.getD 0))
               (q.buy_volume.getD (q.bid_size.getD 0)) (q.ask.getD (q.ask_price.getD 0))
               (q.sell_volume.getD (q.ask_size.getD 0)),
             last_update := q.timestamp,
             last_price := some (compute_features (q.bid.getD (q.bid_price.getD 0))
               (q.buy_volume.getD (q.bid_size.getD 0)) (q.ask.getD (q.ask_price.getD 0))
               (q.sell_volume.getD (q.ask_size.getD 0))).mid } := by
  exact dictGet_regUpdate _ (dictGet_regEnsure reg symbol)

/-- C7: hydrating a quote with numeric bid, ask, bid_size, ask_size stores
spread = max(0, ask − bid); mid = (ask + bid)/2 when spread > 0 else bid;
imbalance = (bid_size − ask_size)/(bid_size + ask_size) when the total exceeds
epsilon, else 0; and last_price = mid.  On the spec's concrete quote
(bid 100.0, ask 100.10, sizes 50/150) this yields spread 0.10, mid 100.05,
imbalance −0.5 and last_price 100.05. -/
theorem hydrate_snapshot_derivation (reg : RegState) (symbol : String) (b a bs asz : ℚ)
    (ts : Option Int) :
    ((regFind (hydrate_snapshot reg symbol
          ⟨some b, none, some a, none, none, some bs, none, some asz, ts⟩) symbol).map
        fun rec => rec.snapshot.spread) = some (max 0 (a - b))
    ∧ ((regFind (hydrate_snapshot reg symbol
          ⟨some b, none, some a, none, none, some bs, none, some asz, ts⟩) symbol).map
        fun rec => rec.snapshot.mid) = some (if 0 < max 0 (a - b) then (a + b) / 2 else b)
    ∧ ((regFind (hydrate_snapshot reg symbol
          ⟨some b, none, some a, none, none, some bs, none, some asz, ts⟩) symbol).map
        fun rec => rec.snapshot.imbalance)
        = some (if EPS < bs + asz then (bs - asz) / (bs + asz) else 0)
    ∧ ((regFind (hydrate_snapshot reg symbol
          ⟨some b, none, some a, none, none, some bs, none, some asz, ts⟩) symbol).map
        fun rec => rec.last_price) = some (some (if 0 < max 0 (a - b) then (a + b) / 2 else b))
    ∧ ((regFind (hydrate_snapshot [] "AAPL"
          ⟨some 100, none, some (1001 / 10), none, none, some 50, none, some 150, none⟩) "AAPL").map
        fun rec => rec.snapshot.spread) = some (1 / 10)
    ∧ ((regFind (hydrate_snapshot [] "AAPL"
          ⟨some 100, none, some (1001 / 10), none, none, some 50, none, some 150, none⟩) "AAPL").map
        fun rec => rec.snapshot.mid) = some (2001 / 20)
    ∧ ((regFind (hydrate_snapshot [] "AAPL"
          ⟨some 100, none, some (1001 / 10), none, none, some 50, none, some 150, none⟩) "AAPL").map
        fun rec => rec.snapshot.imbalance) = some (-(1 / 2))
    ∧ ((regFind (hydrate_snapshot [] "AAPL"
          ⟨some 100, none, some (1001 / 10), none, none, some 50, none, some 150, none⟩) "AAPL").map
        fun rec => rec.last_price) = some (some (2001 / 20)) := by
  refine ⟨?_, ?_, ?_, ?_, ?_, ?_, ?_, ?_⟩ <;>
    simp only [regFind_hydrate, Option.map_some, Option.getD_some, Option.some.injEq,
      compute_features]
  · rfl
  · rfl
  · rfl
  · rfl
  · norm_num
  · norm_num [EPS]
  · norm_num [EPS]
  · norm_num [EPS]

/-! ### Quote normalization (ingestion/quote_stream.py) -/

/-- A raw Polygon quote event; field `asz` embeds the wire field named "as". -/
structure RawEvent where
  sym : Option String
  bp : Option ℚ
  bs : Option Int
  ap : Option ℚ
  asz : Option Int
  t : Option Int
  x : Option Int
  c : Option (List Int)
deriving DecidableEq

structure NormQuote where
  symbol : String
  bid : ℚ
  bsize : Int
  ask : ℚ
  asize : Int
  ts : Int
  ex : Option Int
  cond : Option (List Int)
deriving DecidableEq

/-- `QuoteProcess._normalize_quote`: require sym, bp, bs, ap, "as", t (a
missing or unparseable field raises, caught as `return None`); otherwise emit
the normalized quote, carrying the optional exchange and condition fields. -/
def normalize_quote (ev : RawEvent) : Option NormQuote :=
  match ev.sym, ev.bp, ev.bs, ev.ap, ev.asz, ev.t with
  | some sym, some bp, some bs, some ap, some asz, some t =>
    some ⟨sym, bp, bs, ap, asz, t, ev.x, ev.c⟩
  | _, _, _, _, _, _ => none

/-- C8 counterexample: a crossed quote (bid 101 > ask 100) passes
`_normalize_quote` — so it is published, not discarded — and
`hydrate_snapshot` updates the (previously absent) symbol's snapshot, the mid
becoming the bid. -/
theorem quote_crossed_counterexample :
    (normalize_quote ⟨some "A", some 101, some 1, some 100, some 1, some 0, none, none⟩).isSome
      = true
    ∧ ((regFind (hydrate_snapshot [] "A"
          ⟨some 101, none, some 100, none, none, some 1, none, some 1, some 0⟩) "A").map
        fun rec => rec.snapshot.mid) = some 101
    ∧ regFind ([] : RegState) "A" = none := by
  refine ⟨rfl, ?_, rfl⟩
  simp only [regFind_hydrate, Option.map_some, Option.some.injEq, compute_features]
  norm_num

/-- C8 amended: quotes with ask < bid are not discarded: `_normalize_quote`
returns the normalized event whenever the required fields are present (it
performs no NBBO check), and `hydrate_snapshot` updates the snapshot, clamping
spread to 0 and setting mid = bid. -/
theorem quote_crossed_amended (sym : String) (bp : ℚ) (bs : Int) (ap : ℚ) (asz t : Int)
    (x : Option Int) (c : Option (List Int)) (reg : RegState) (symbol : String)
    (bsq asq : ℚ) (ts : Option Int) (hcross : ap < bp) :
    normalize_quote ⟨some sym, some bp, some bs, some ap, some asz, some t, x, c⟩
      = some ⟨sym, bp, bs, ap, asz, t, x, c⟩
    ∧ ((regFind (hydrate_snapshot reg symbol
          ⟨some bp, none, some ap, none, none, some bsq, none, some asq, ts⟩) symbol).map
        fun rec => rec.snapshot.spread) = some 0
    ∧ ((regFind (hydrate_snapshot reg symbol
          ⟨some bp, none, some ap, none, none, some bsq, none, some asq, ts⟩) symbol).map
        fun rec => rec.snapshot.mid) = some bp
    ∧ ((regFind (hydrate_snapshot reg symbol
          ⟨some bp, none, some ap, none, none, some bsq, none, some asq, ts⟩) symbol).map
        fun rec => rec.last_update) = some ts := by
  have hsp : max 0 (ap - bp) = 0 := max_eq_left (by linarith)
  refine ⟨rfl, ?_, ?_, ?_⟩ <;>
    simp [regFind_hydrate, compute_features, hsp]

/-- C8 amended witness: the crossed quote bid 101 / ask 100. -/
theorem quote_crossed_amended_witness :
    ((100 : ℚ) < 101)
    ∧ (normalize_quote ⟨some "A", some 101, some 1, some 100, some 1, some 0, none, none⟩
        = some ⟨"A", 101, 1, 100, 1, 0, none, none⟩
      ∧ ((regFind (hydrate_snapshot [] "A"
            ⟨some 101, none, some 100, none, none, some 1, none, some 1, some 0⟩) "A").map
          fun rec => rec.snapshot.spread) = some 0
      ∧ ((regFind (hydrate_snapshot [] "A"
            ⟨some 101, none, some 100, none, none, some 1, none, some 1, some 0⟩) "A").map
          fun rec => rec.snapshot.mid) = some 101
      ∧ ((regFind (hydrate_snapshot [] "A"
            ⟨some 101, none, some 100, none, none, some 1, none, some 1, some 0⟩) "A").map
          fun rec => rec.last_update) = some (some 0)) :=
  ⟨by norm_num,
   quote_crossed_amended "A" 101 1 100 1 0 none none [] "A" 1 1 (some 0) (by norm_num)⟩

/-- A registry record already holding non-default values, used to exhibit that
hydration of a side-less quote overwrites it. -/
def seededRecord : SymRecord :=
  { mode := "WARM", flags := [], last_update := some 1, last_price := some 5,
    last_quote := none, snapshot := { zeroSnapshot with mid := 5 } }

/-- C9 counterexample: hydrating a quote with neither bid nor ask (only a
timestamp) does not leave the record unchanged: last_update moves from 1 to 2,
the snapshot mid from 5 to 0, and last_price from 5 to 0. -/
theorem hydrate_missing_counterexample :
    ((regFind (hydrate_snapshot [("A", seededRecord)] "A"
          ⟨none, none, none, none, none, none, none, none, some 2⟩) "A").map
        fun rec => rec.last_update) = some (some 2)
    ∧ ((regFind [("A", seededRecord)] "A").map fun rec => rec.last_update) = some (some 1)
    ∧ ((regFind (hydrate_snapshot [("A", seededRecord)] "A"
          ⟨none, none, none, none, none, none, none, none, some 2⟩) "A").map
        fun rec => rec.snapshot.mid) = some 0
    ∧ ((regFind [("A", seededRecord)] "A").map fun rec => rec.snapshot.mid) = some 5
    ∧ ((regFind (hydrate_snapshot [("A", seededRecord)] "A"
          ⟨none, none, none, none, none, none, none, none, some 2⟩) "A").map
        fun rec => rec.last_price) = some (some 0) := by
  have hA : pyToUpper "A" = "A" := by decide
  have hfind : regFind [("A", seededRecord)] "A" = some seededRecord := by
    simp [regFind, hA, dictGet]
  refine ⟨?_, ?_, ?_, ?_, ?_⟩ <;>
    simp only [regFind_hydrate, hfind, Option.map_some, Option.some.injEq, compute_features,
      Option.getD_none, seededRecord]
  · rfl
  · rfl
  · norm_num [EPS]
  · rfl
  · norm_num [EPS]

/-- C9 amended: a quote missing bid and ask is not ignored: the sides default
to 0.0 (after the bid_price/ask_price fallbacks), the snapshot is overwritten
with the features of the defaulted values — the zero snapshot — last_update is
set to the quote's timestamp and last_price to the computed mid 0. -/
theorem hydrate_missing_amended (reg : RegState) (symbol : String) (ts : Option Int) :
    regFind (hydrate_snapshot reg symbol
        ⟨none, none, none, none, none, none, none, none, ts⟩) symbol =
      some { (regEnsure reg symbol).1 with
             snapshot := zeroSnapshot, last_update := ts, last_price := some 0 } := by
  rw [regFind_hydrate]
  have hz : compute_features 0 0 0 0 = zeroSnapshot := by
    simp only [compute_features, zeroSnapshot]
    norm_num [EPS]
  simp [hz, zeroSnapshot]

/-! ### Registry lazy creation (shared_mem/registry.py) -/

/-- C10: for a symbol with no record yet, `get_mode` returns "COLD" and — like
`registry[symbol]` — creates and stores the default record (mode COLD, empty
flags, zeroed snapshot) as a side effect; the membership test does not create
anything; and any spelling with the same upper-casing addresses the same
record. -/
theorem registry_lazy_create (reg : RegState) (sym : String)
    (habs : dictGet (pyToUpper sym) reg = none) :
    (get_mode reg sym).1 = "COLD"
    ∧ regFind (get_mode reg sym).2 sym = some defaultRecord
    ∧ (regGetItem reg sym).1 = defaultRecord
    ∧ regFind (regGetItem reg sym).2 sym = some defaultRecord
    ∧ regContains reg sym = (false, reg)
    ∧ (∀ sym2 : String, pyToUpper sym2 = pyToUpper sym →
        regFind (get_mode reg sym).2 sym2 = some defaultRecord) := by
  have habs2 : dictGet (pyToUpper (pyToUpper sym)) reg = none := by
    rw [pyToUpper_idem]
    exact habs
  have hmode : get_mode reg sym =
      ("COLD", reg.concat (pyToUpper (pyToUpper sym), defaultRecord)) := by
    simp [get_mode, regEnsure, habs2, defaultRecord]
  have hfind : regFind (get_mode reg sym).2 sym = some defaultRecord := by
    rw [hmode]
    show dictGet (pyToUpper sym) (reg.concat (pyToUpper (pyToUpper sym), defaultRecord))
      = some defaultRecord
    rw [pyToUpper_idem]
    exact dictGet_concat_self _ _ _ habs
  refine ⟨by rw [hmode], hfind, ?_, ?_, ?_, ?_⟩
  · simp [regGetItem, regEnsure, habs]
  · show dictGet (pyToUpper sym) ((regEnsure reg sym).2) = some defaultRecord
    simp only [regEnsure, habs]
    exact dictGet_concat_self _ _ _ habs
  · simp [regContains, habs]
  · intro sym2 h2
    show dictGet (pyToUpper sym2) (get_mode reg sym).2 = some defaultRecord
    rw [h2]
    exact hfind

/-- C10 witness: first access through the lower-case spelling "aapl", then a
read through "AAPL" hits the same freshly created record. -/
theorem registry_lazy_create_witness :
    dictGet (pyToUpper "aapl") ([] : RegState) = none
    ∧ (get_mode ([] : RegState) "aapl").1 = "COLD"
    ∧ regFind (get_mode ([] : RegState) "aapl").2 "AAPL" = some defaultRecord
    ∧ regContains ([] : RegState) "aapl" = (false, []) := by
  refine ⟨rfl, (registry_lazy_create [] "aapl" rfl).1, ?_, (registry_lazy_create [] "aapl" rfl).2.2.2.2.1⟩
  exact (registry_lazy_create [] "aapl" rfl).2.2.2.2.2 "AAPL" (by decide)

end Reflex
